import Mathlib

/-!
Verification development for the lancer load generator
(repository ei-grad/lancer).

The repository contains a library scheduler (`lancer.go`, function `Linear`)
and a main program (final revision: the file defining `Lancer.Lance`,
`Worker` and the ready-workers tracker goroutine).  This file gives a
shallow embedding of the rate schedule, the two schedulers' emission
loops, the worker loop and the ready-worker tracker, and proves the
specification's claims about them.

Modelling conventions:
* Go `float64` arithmetic is modelled exactly: rate parameters are ℚ and
  the square root lives in ℝ (`Real.sqrt` for `math.Sqrt`); rounding of
  floating point and the truncation of seconds to `time.Duration`
  nanoseconds are abstracted away.
* Wall-clock time is not modelled; instead the sign of `dt` at each loop
  index (whether the deadline was already missed) is an oracle
  `late : ℕ → Bool`, and observation of context cancellation at each
  select point is an oracle `canceled : ℕ → Bool`.  Channel-receiver
  readiness in `Linear`'s select-with-default is an oracle `ready`.
* Emitted permits are recorded by their schedule index `i` (the value
  sent on the channel is `tickTime i`; the extra permit `Lance` sends
  before its loop is recorded as index 0, matching its value
  `time.Duration(0) = tickTime 0`).
-/

namespace Lancer

/-- Rate slope, from the source: `slope = (high - low) / durationSeconds`
(computed in `Linear` and in `NewLancer`). -/
def slope (low high durS : ℚ) : ℚ :=
  (high - low) / durS

/-- Total number of scheduled ticks, from the source:
`count := int((high + low) * durationSeconds / 2)`.
For the nonnegative values produced by valid profiles, Go's float-to-int
conversion truncates toward zero, i.e. takes the floor; a negative float
would yield a negative Go `int`, for which the `for i := 1; i < count+1`
loop body never runs, so mapping it to `0` via `Int.toNat` is faithful
to the loop behaviour. -/
def count (low high durS : ℚ) : ℕ :=
  (⌊(high + low) * durS / 2⌋).toNat

/-- Closed-form tick schedule shared verbatim by `Linear` (lancer.go) and
`Lancer.tickTime` (main program):
if `slope == 0` the tick is `n / low` seconds, otherwise
`(math.Sqrt(lowSq + 2*slope*n) - low) / slope` seconds, with
`lowSq = low * low`.  The result is the scheduled offset in seconds. -/
noncomputable def tickTime (low high durS : ℚ) (n : ℕ) : ℝ :=
  if slope low high durS = 0 then
    (n : ℝ) / (low : ℝ)
  else
    (Real.sqrt ((low : ℝ) * (low : ℝ) + 2 * (slope low high durS : ℝ) * (n : ℝ))
      - (low : ℝ)) / (slope low high durS : ℝ)

/-- Errors the library scheduler `Linear` can name: its declared sentinel
errors `ErrNoReceiver`, `ErrTickMissed`, `ErrBadDuration`, plus
`context.Canceled` which it returns on cancellation. -/
inductive LinearError
  | noReceiver
  | tickMissed
  | badDuration
  | canceled
deriving DecidableEq

/-- Emission loop of `Linear`: for each remaining index, the
select-with-default either observes cancellation (`context.Canceled`),
sends the tick to a ready receiver, or fails with `ErrNoReceiver`.
The `dt < 0` missed-tick branch is commented out in the source, so the
loop body does not depend on timing at all (the sleep only delays). -/
def linearLoop (canceled ready : ℕ → Bool) (acc : List ℕ) :
    List ℕ → Except LinearError (List ℕ)
  | [] => Except.ok acc
  | i :: rest =>
    if canceled i then Except.error LinearError.canceled
    else if ready i then linearLoop canceled ready (acc ++ [i]) rest
    else Except.error LinearError.noReceiver

open scoped Classical in
/-- The library scheduler `Linear` (lancer.go): rejects `duration <= 0`
and `tickTime(1) > duration` with `ErrBadDuration`, then runs the
emission loop over indices `1 .. count`. -/
noncomputable def Linear (low high durS : ℚ) (canceled ready : ℕ → Bool) :
    Except LinearError (List ℕ) :=
  if durS ≤ 0 then Except.error LinearError.badDuration
  else if (durS : ℝ) < tickTime low high durS 1 then Except.error LinearError.badDuration
  else linearLoop canceled ready [] (List.range' 1 (count low high durS))

/-- Emission loop of `Lancer.Lance` (main program): at each index, if the
deadline was already missed (`dt < 0`) the missed counter is incremented,
the run aborts with the max-missed-fraction error (`none`) when
`missedFrac * missed > count`, and otherwise the loop `continue`s —
skipping both the sleep and the permit send.  If the deadline was not
missed, the post-sleep select either sends the permit or observes
cancellation and returns `nil` (`some`) with the permits emitted so far.
The result also carries the final missed counter. -/
def lanceLoop (missedFrac cnt : ℕ) (late canceled : ℕ → Bool)
    (missed : ℕ) (acc : List ℕ) : List ℕ → Option (List ℕ × ℕ)
  | [] => some (acc, missed)
  | i :: rest =>
    if late i then
      if missedFrac * (missed + 1) > cnt then none
      else lanceLoop missedFrac cnt late canceled (missed + 1) acc rest
    else if canceled i then some (acc, missed)
    else lanceLoop missedFrac cnt late canceled missed (acc ++ [i]) rest

/-- The main program's scheduler `Lancer.Lance`: it performs no profile
validation; it first sends the extra `time.Duration(0)` permit (recorded
as index 0) unless cancellation is observed at that initial select, then
runs the loop over indices `1 .. count`.  `none` models the
max-missed-fraction error return; `some` models a `nil` return. -/
def Lance (low high durS : ℚ) (missedFrac : ℕ) (late canceled : ℕ → Bool) :
    Option (List ℕ × ℕ) :=
  if canceled 0 then some ([], 0)
  else lanceLoop missedFrac (count low high durS) late canceled 0 [0]
    (List.range' 1 (count low high durS))

/-- Events observed by the ready-workers tracker goroutine in `main`:
either a `+1` or `-1` announcement received from `readyWorkers`, or the
context-done signal. -/
inductive TrackerEv
  | delta (d : ℤ)
  | done

/-- The ready-workers tracker goroutine in `main` (after the start-up
barrier): it folds announcements into `workersReady`, returns the fatal
overload error (modelled as `true`) the moment the count reaches zero,
and returns `nil` (`false`) when it observes cancellation or the trace
ends. -/
def trackerRun (workersReady : ℤ) : List TrackerEv → Bool
  | [] => false
  | TrackerEv.done :: _ => false
  | TrackerEv.delta d :: rest =>
    if workersReady + d = 0 then true else trackerRun (workersReady + d) rest

/-- Outcome of one HTTP call in `Worker`: `RoundTrip` failure, body-read
failure, or success with a status code and a body size. -/
inductive Outcome
  | transportErr
  | readErr
  | success (code size : ℕ)
deriving DecidableEq

/-- The `Hit` record from the main program, with the wall-clock
`TotalTime` abstracted away and `Path` modelled by the numeric spear id;
`error : Bool` models whether the `Error` field is set. -/
structure Hit where
  tick : ℕ
  path : ℕ
  protoCode : ℕ
  sizeIn : ℕ
  error : Bool
deriving DecidableEq

/-- The single `Hit` the worker emits for a spear, per the source: on
transport or read failure only `Error` is set (other fields zero); on
success `Tick`, `Path`, `ProtoCode` and `SizeIn` are filled in. -/
def mkHit (o : Outcome) (t s : ℕ) : Hit :=
  match o with
  | Outcome.transportErr => { tick := 0, path := 0, protoCode := 0, sizeIn := 0, error := true }
  | Outcome.readErr => { tick := 0, path := 0, protoCode := 0, sizeIn := 0, error := true }
  | Outcome.success c z => { tick := t, path := s, protoCode := c, sizeIn := z, error := false }

/-- The `Worker` loop of the final main program, over the list of spear
ids it claims from the `spears` channel.  For each claimed spear it
announces idle (`+1`), waits for a permit — if cancellation is observed
there it returns `nil` having emitted no hit for that spear and no `-1`
— then announces busy (`-1`), executes the call and emits exactly one
hit, regardless of the call's outcome, before looping.  `tick s` is the
permit value the worker receives for spear `s`.  Returns the emitted
hits and the announcements sent to `readyWorkers`. -/
def Worker (outcome : ℕ → Outcome) (canceled : ℕ → Bool) (tick : ℕ → ℕ) :
    List ℕ → List Hit × List ℤ
  | [] => ([], [])
  | s :: rest =>
    if canceled s then ([], [1])
    else
      let r := Worker outcome canceled tick rest
      (mkHit (outcome s) (tick s) s :: r.1, 1 :: -1 :: r.2)

/-- Announcement trace of `Worker`, written without reference to the
call outcomes: one `+1, -1` pair per spear processed before
cancellation, and a trailing lone `+1` if cancellation strikes while
waiting for a permit. -/
def workerDeltas (canceled : ℕ → Bool) : List ℕ → List ℤ
  | [] => []
  | s :: rest => if canceled s then [1] else 1 :: -1 :: workerDeltas canceled rest

lemma count_eval (low high durS : ℚ) (n : ℕ) (h : (high + low) * durS / 2 = (n : ℚ)) :
    count low high durS = n := by
  simp [count, h]

lemma slope_cast (low high durS : ℚ) :
    ((slope low high durS : ℚ) : ℝ) = ((high : ℝ) - (low : ℝ)) / (durS : ℝ) := by
  simp [slope]

lemma count_le (low high durS : ℚ) (hl : 0 ≤ low) (hh : 0 ≤ high) (hd : 0 < durS) :
    ((count low high durS : ℚ)) ≤ (high + low) * durS / 2 := by
  have hq : (0 : ℚ) ≤ (high + low) * durS / 2 := by positivity
  have h1 : (0 : ℤ) ≤ ⌊(high + low) * durS / 2⌋ := Int.floor_nonneg.2 hq
  have h2 : ((count low high durS : ℤ) : ℚ) = (⌊(high + low) * durS / 2⌋ : ℚ) := by
    simp [count, Int.toNat_of_nonneg h1]
  calc ((count low high durS : ℚ)) = ((count low high durS : ℤ) : ℚ) := by push_cast; ring
    _ = (⌊(high + low) * durS / 2⌋ : ℚ) := h2
    _ ≤ (high + low) * durS / 2 := Int.floor_le _

/-- Lower bound for the square-root argument over the scheduled range. -/
lemma sqrtArg_lower (low high durS : ℚ) (hl : 0 ≤ low) (hh : 0 ≤ high) (hd : 0 < durS)
    (n : ℕ) (hn : n ≤ count low high durS) :
    min ((low : ℝ) * low) ((high : ℝ) * high) ≤
      (low : ℝ) * low + 2 * (slope low high durS : ℝ) * n := by
  rcases le_or_lt 0 ((slope low high durS : ℚ) : ℝ) with hs | hs
  · have : (0 : ℝ) ≤ 2 * (slope low high durS : ℝ) * n := by positivity
    have := min_le_left ((low : ℝ) * low) ((high : ℝ) * high)
    linarith
  · -- negative slope: bound via n ≤ count ≤ (high+low)*durS/2
    have hcq : ((count low high durS : ℚ)) ≤ (high + low) * durS / 2 :=
      count_le low high durS hl hh hd
    have hcr : ((count low high durS : ℝ)) ≤ ((high : ℝ) + low) * durS / 2 := by
      calc ((count low high durS : ℝ)) = (((count low high durS : ℚ)) : ℝ) := by push_cast; ring
        _ ≤ (((high + low) * durS / 2 : ℚ) : ℝ) := by exact_mod_cast hcq
        _ = ((high : ℝ) + low) * durS / 2 := by push_cast; ring
    have hnr : (n : ℝ) ≤ ((high : ℝ) + low) * durS / 2 := by
      calc (n : ℝ) ≤ ((count low high durS : ℝ)) := by exact_mod_cast hn
        _ ≤ _ := hcr
    have hmul : 2 * (slope low high durS : ℝ) * (((high : ℝ) + low) * durS / 2) ≤
        2 * (slope low high durS : ℝ) * n := by
      apply mul_le_mul_of_nonpos_left hnr
      linarith
    have hdr : (0 : ℝ) < (durS : ℝ) := by exact_mod_cast hd
    have hslope_eval : 2 * (slope low high durS : ℝ) * (((high : ℝ) + low) * durS / 2) =
        ((high : ℝ) - low) * ((high : ℝ) + low) := by
      rw [slope_cast]
      field_simp
      ring
    have hmin : min ((low : ℝ) * low) ((high : ℝ) * high) ≤ (high : ℝ) * high :=
      min_le_right _ _
    nlinarith [hmul, hslope_eval, hmin]

lemma tickTime_inverse (low high durS : ℚ) (n : ℕ)
    (hz : slope low high durS = 0 → low ≠ 0)
    (harg : 0 ≤ (low : ℝ) * low + 2 * (slope low high durS : ℝ) * n) :
    (low : ℝ) * tickTime low high durS n
      + (slope low high durS : ℝ) * tickTime low high durS n ^ 2 / 2 = n := by
  by_cases hs : slope low high durS = 0
  · have hlow : (low : ℝ) ≠ 0 := by exact_mod_cast hz hs
    have hs' : ((slope low high durS : ℚ) : ℝ) = 0 := by exact_mod_cast hs
    simp only [tickTime, if_pos hs, hs']
    field_simp
  · have hs' : ((slope low high durS : ℚ) : ℝ) ≠ 0 := by exact_mod_cast hs
    simp only [tickTime, if_neg hs]
    set σ : ℝ := ((slope low high durS : ℚ) : ℝ) with hσ
    set s : ℝ := Real.sqrt ((low : ℝ) * low + 2 * σ * n) with hsdef
    have hsq : s ^ 2 = (low : ℝ) * low + 2 * σ * n := Real.sq_sqrt harg
    field_simp
    nlinarith [hsq]

lemma tickTime_slope_zero (low high durS : ℚ) (n : ℕ) (hs : slope low high durS = 0) :
    tickTime low high durS n = (n : ℝ) / (low : ℝ) := by
  simp [tickTime, hs]

lemma slope_zero_high_eq (low high durS : ℚ) (hd : 0 < durS)
    (hs : slope low high durS = 0) : high = low := by
  have := hs
  rw [slope, div_eq_zero_iff] at this
  rcases this with h | h
  · linarith
  · exact absurd h (by positivity)

lemma tickTime_strict_mono (low high durS : ℚ) (hl : 0 ≤ low) (hh : 0 ≤ high)
    (hd : 0 < durS) (hpos : 0 < low + high) (n : ℕ)
    (hn : n + 1 ≤ count low high durS) :
    tickTime low high durS n < tickTime low high durS (n + 1) := by
  by_cases hs : slope low high durS = 0
  · -- constant-rate: low = high > 0
    have hhl : high = low := slope_zero_high_eq low high durS hd hs
    have hlow : (0 : ℝ) < (low : ℝ) := by
      have : (0 : ℚ) < low := by rw [hhl] at hpos; linarith
      exact_mod_cast this
    rw [tickTime_slope_zero _ _ _ _ hs, tickTime_slope_zero _ _ _ _ hs]
    have : (n : ℝ) < ((n + 1 : ℕ) : ℝ) := by exact_mod_cast Nat.lt_succ_self n
    exact (div_lt_div_iff_of_pos_right hlow).2 this
  · -- ramp: sqrt branch
    have hs' : ((slope low high durS : ℚ) : ℝ) ≠ 0 := by exact_mod_cast hs
    simp only [tickTime, if_neg hs]
    set σ : ℝ := ((slope low high durS : ℚ) : ℝ) with hσ
    have hargn1 : (0 : ℝ) ≤ (low : ℝ) * low + 2 * σ * (n + 1 : ℕ) := by
      have hmin : (0 : ℝ) ≤ min ((low : ℝ) * low) ((high : ℝ) * high) := by
        have h1 : (0 : ℝ) ≤ (low : ℝ) * low := by positivity
        have h2 : (0 : ℝ) ≤ (high : ℝ) * high := by positivity
        exact le_min h1 h2
      exact le_trans hmin (sqrtArg_lower low high durS hl hh hd (n + 1) hn)
    rcases lt_or_gt_of_ne hs' with hneg | hpos'
    · -- slope < 0: arguments decrease, sqrt decreases, division flips
      have hlt : (low : ℝ) * low + 2 * σ * (n + 1 : ℕ) < (low : ℝ) * low + 2 * σ * n := by
        push_cast
        nlinarith
      have hsqrt : Real.sqrt ((low : ℝ) * low + 2 * σ * (n + 1 : ℕ)) <
          Real.sqrt ((low : ℝ) * low + 2 * σ * n) :=
        Real.sqrt_lt_sqrt hargn1 hlt
      rw [div_lt_div_right_of_neg hneg]
      linarith
    · -- slope > 0: arguments increase, sqrt increases
      have hargn : (0 : ℝ) ≤ (low : ℝ) * low + 2 * σ * n := by positivity
      have hlt : (low : ℝ) * low + 2 * σ * n < (low : ℝ) * low + 2 * σ * (n + 1 : ℕ) := by
        push_cast
        nlinarith
      have hsqrt : Real.sqrt ((low : ℝ) * low + 2 * σ * n) <
          Real.sqrt ((low : ℝ) * low + 2 * σ * (n + 1 : ℕ)) :=
        Real.sqrt_lt_sqrt hargn hlt
      rw [div_lt_div_iff_of_pos_right hpos']
      linarith

lemma lanceLoop_complete (mf c : ℕ) (late canceled : ℕ → Bool) (l : List ℕ)
    (missed : ℕ) (acc : List ℕ)
    (hc : ∀ i ∈ l, canceled i = false)
    (hth : mf * (missed + (l.filter late).length) ≤ c) :
    lanceLoop mf c late canceled missed acc l =
      some (acc ++ l.filter (fun i => ! late i), missed + (l.filter late).length) := by
  induction l generalizing missed acc with
  | nil => simp [lanceLoop]
  | cons i rest ih =>
    by_cases hl : late i
    · have harg : missed + ((i :: rest).filter late).length
          = (missed + 1) + (rest.filter late).length := by
        simp [List.filter, hl]
        omega
      rw [harg] at hth
      have hrec : mf * ((missed + 1) + (rest.filter late).length) ≤ c := hth
      have hnoabort : ¬ mf * (missed + 1) > c := by
        have h1 : mf * (missed + 1) ≤ mf * ((missed + 1) + (rest.filter late).length) :=
          Nat.mul_le_mul_left mf (by omega)
        omega
      rw [show lanceLoop mf c late canceled missed acc (i :: rest)
          = lanceLoop mf c late canceled (missed + 1) acc rest from by
        simp [lanceLoop, hl, hnoabort]]
      rw [ih (missed + 1) acc (fun j hj => hc j (List.mem_cons_of_mem i hj)) hrec]
      have hfilter : (i :: rest).filter (fun j => ! late j) = rest.filter (fun j => ! late j) := by
        simp [List.filter, hl]
      rw [hfilter, harg]
    · have hci : canceled i = false := hc i (List.mem_cons_self i rest)
      have hlen : ((i :: rest).filter late).length = (rest.filter late).length := by
        simp [List.filter, hl]
      rw [hlen] at hth
      rw [show lanceLoop mf c late canceled missed acc (i :: rest)
          = lanceLoop mf c late canceled missed (acc ++ [i]) rest from by
        simp [lanceLoop, hl, hci]]
      rw [ih missed (acc ++ [i]) (fun j hj => hc j (List.mem_cons_of_mem i hj)) hth]
      have hfilter : (i :: rest).filter (fun j => ! late j)
          = i :: rest.filter (fun j => ! late j) := by
        simp [List.filter, hl]
      rw [hfilter, hlen]
      simp

lemma lanceLoop_abort (mf c : ℕ) (late canceled : ℕ → Bool) (l : List ℕ)
    (missed : ℕ) (acc : List ℕ)
    (hc : ∀ i ∈ l, canceled i = false)
    (hstart : mf * missed ≤ c)
    (hth : c < mf * (missed + (l.filter late).length)) :
    lanceLoop mf c late canceled missed acc l = none := by
  induction l generalizing missed acc with
  | nil => simp at hth; omega
  | cons i rest ih =>
    by_cases hl : late i
    · have harg : missed + ((i :: rest).filter late).length
          = (missed + 1) + (rest.filter late).length := by
        simp [List.filter, hl]
        omega
      rw [harg] at hth
      by_cases habort : mf * (missed + 1) > c
      · simp [lanceLoop, hl, habort]
      · rw [show lanceLoop mf c late canceled missed acc (i :: rest)
            = lanceLoop mf c late canceled (missed + 1) acc rest from by
          simp [lanceLoop, hl, habort]]
        exact ih (missed + 1) acc (fun j hj => hc j (List.mem_cons_of_mem i hj))
          (by omega) hth
    · have hci : canceled i = false := hc i (List.mem_cons_self i rest)
      have hlen : ((i :: rest).filter late).length = (rest.filter late).length := by
        simp [List.filter, hl]
      rw [hlen] at hth
      rw [show lanceLoop mf c late canceled missed acc (i :: rest)
          = lanceLoop mf c late canceled missed (acc ++ [i]) rest from by
        simp [lanceLoop, hl, hci]]
      exact ih missed (acc ++ [i]) (fun j hj => hc j (List.mem_cons_of_mem i hj)) hstart hth

lemma linearLoop_complete (canceled ready : ℕ → Bool) (l : List ℕ) (acc : List ℕ)
    (hc : ∀ i ∈ l, canceled i = false) (hr : ∀ i ∈ l, ready i = true) :
    linearLoop canceled ready acc l = Except.ok (acc ++ l) := by
  induction l generalizing acc with
  | nil => simp [linearLoop]
  | cons i rest ih =>
    have hci : canceled i = false := hc i (List.mem_cons_self i rest)
    have hri : ready i = true := hr i (List.mem_cons_self i rest)
    rw [show linearLoop canceled ready acc (i :: rest)
        = linearLoop canceled ready (acc ++ [i]) rest from by
      simp [linearLoop, hci, hri]]
    rw [ih (acc ++ [i]) (fun j hj => hc j (List.mem_cons_of_mem i hj))
      (fun j hj => hr j (List.mem_cons_of_mem i hj))]
    simp

lemma linearLoop_ne_tickMissed (canceled ready : ℕ → Bool) (l : List ℕ) (acc : List ℕ) :
    linearLoop canceled ready acc l ≠ Except.error LinearError.tickMissed := by
  induction l generalizing acc with
  | nil => simp [linearLoop]
  | cons i rest ih =>
    by_cases hci : canceled i
    · simp [linearLoop, hci]
    · by_cases hri : ready i
      · simpa [linearLoop, hci, hri] using ih (acc ++ [i])
      · simp [linearLoop, hci, hri]

lemma trackerRun_deltas (c : ℤ) (ds : List ℤ) :
    trackerRun c (ds.map TrackerEv.delta) = true ↔
      ∃ k, k < ds.length ∧ c + (ds.take (k + 1)).sum = 0 := by
  induction ds generalizing c with
  | nil => simp [trackerRun]
  | cons d rest ih =>
    simp only [List.map_cons, trackerRun]
    by_cases h : c + d = 0
    · simp only [if_pos h]
      constructor
      · intro _
        exact ⟨0, by simp, by simpa using h⟩
      · intro _
        trivial
    · simp only [if_neg h]
      rw [ih (c + d)]
      constructor
      · rintro ⟨k, hk, hsum⟩
        refine ⟨k + 1, by simpa using hk, ?_⟩
        simp only [List.take_succ_cons, List.sum_cons]
        omega
      · rintro ⟨k, hk, hsum⟩
        rcases k with _ | k'
        · exfalso
          apply h
          simpa using hsum
        · refine ⟨k', by simpa using hk, ?_⟩
          simp only [List.take_succ_cons, List.sum_cons] at hsum
          omega

lemma worker_hits (outcome : ℕ → Outcome) (canceled : ℕ → Bool) (tick : ℕ → ℕ)
    (spears : List ℕ) :
    (Worker outcome canceled tick spears).1 =
      (spears.takeWhile (fun s => ! canceled s)).map (fun s => mkHit (outcome s) (tick s) s) := by
  induction spears with
  | nil => simp [Worker]
  | cons s rest ih =>
    by_cases hcs : canceled s
    · simp [Worker, List.takeWhile, hcs]
    · simp only [Worker, if_neg hcs]
      simp [List.takeWhile, hcs, ih]

lemma worker_deltas (outcome : ℕ → Outcome) (canceled : ℕ → Bool) (tick : ℕ → ℕ)
    (spears : List ℕ) :
    (Worker outcome canceled tick spears).2 = workerDeltas canceled spears := by
  induction spears with
  | nil => simp [Worker, workerDeltas]
  | cons s rest ih =>
    by_cases hcs : canceled s
    · simp [Worker, workerDeltas, hcs]
    · simp [Worker, workerDeltas, hcs, ih]

lemma workerDeltas_sum (canceled : ℕ → Bool) (spears : List ℕ)
    (hc : ∀ s ∈ spears, canceled s = false) :
    (workerDeltas canceled spears).sum = 0 := by
  induction spears with
  | nil => simp [workerDeltas]
  | cons s rest ih =>
    have hcs : canceled s = false := hc s (List.mem_cons_self s rest)
    simp [workerDeltas, hcs, ih (fun j hj => hc j (List.mem_cons_of_mem s hj))]

end Lancer

open Lancer

/-- C1: for every profile with duration > 0, the scheduler's tickTime equals the
closed-form inverse of the cumulative rate integral: when slope = 0 it is
n / low seconds, when slope ≠ 0 it is (sqrt(low² + 2·slope·n) − low) / slope
seconds, and wherever these formulas are defined the cumulative rate integral
low·t + slope·t²/2 evaluated at t = tickTime(n) gives back n; in particular
for low = high = 10 and duration = 10 s, tickTime(n) = n/10 seconds for all n,
and tickTime(50) = 5 s. -/
theorem C1_tickTime_closed_form (low high durS : ℚ) (hd : 0 < durS) (n : ℕ) :
    (Lancer.slope low high durS = 0 → tickTime low high durS n = (n : ℝ) / (low : ℝ))
    ∧ (Lancer.slope low high durS ≠ 0 →
        tickTime low high durS n =
          (Real.sqrt ((low : ℝ) * low + 2 * (Lancer.slope low high durS : ℝ) * n) - low) /
            (Lancer.slope low high durS : ℝ))
    ∧ ((Lancer.slope low high durS = 0 → low ≠ 0) →
        0 ≤ (low : ℝ) * low + 2 * (Lancer.slope low high durS : ℝ) * n →
        (low : ℝ) * tickTime low high durS n
          + (Lancer.slope low high durS : ℝ) * tickTime low high durS n ^ 2 / 2 = n)
    ∧ (∀ m : ℕ, tickTime 10 10 10 m = (m : ℝ) / 10)
    ∧ tickTime 10 10 10 50 = 5 := by
  refine ⟨fun hs => tickTime_slope_zero low high durS n hs,
    fun hs => by simp [tickTime, hs],
    fun hz harg => tickTime_inverse low high durS n hz harg,
    fun m => ?_, ?_⟩
  · rw [tickTime_slope_zero 10 10 10 m (by norm_num [Lancer.slope])]
    norm_num
  · rw [tickTime_slope_zero 10 10 10 50 (by norm_num [Lancer.slope])]
    norm_num

/-- C1 witness: the theorem instantiated at low = high = 10, duration = 10 s,
n = 50, with the hypotheses discharged. -/
theorem C1_tickTime_closed_form_witness :
    (0 : ℚ) < 10
    ∧ ((Lancer.slope 10 10 10 = 0 → tickTime 10 10 10 50 = (50 : ℕ) / (10 : ℚ))
        → tickTime 10 10 10 50 = 5)
    ∧ tickTime 10 10 10 50 = 5 :=
  ⟨by norm_num, fun _ => (C1_tickTime_closed_form 10 10 10 (by norm_num) 50).2.2.2.2,
    (C1_tickTime_closed_form 10 10 10 (by norm_num) 50).2.2.2.2⟩

/-- C3: for every valid profile (low ≥ 0, high ≥ 0, duration > 0, at least one
rate positive), tickTime is strictly increasing over the scheduled indices:
tickTime(n) < tickTime(n+1) for every n with n+1 ≤ N, so permits are generated
in strictly increasing scheduled-offset order. -/
theorem C3_schedule_monotonic (low high durS : ℚ) (hl : 0 ≤ low) (hh : 0 ≤ high)
    (hd : 0 < durS) (hpos : 0 < low + high) (n : ℕ)
    (hn : n + 1 ≤ count low high durS) :
    tickTime low high durS n < tickTime low high durS (n + 1) :=
  tickTime_strict_mono low high durS hl hh hd hpos n hn

/-- C3 witness: for the profile low = high = 10, duration = 10 s (N = 100),
tickTime 0 < tickTime 1. -/
theorem C3_schedule_monotonic_witness :
    (0 : ℕ) + 1 ≤ count 10 10 10
    ∧ tickTime 10 10 10 0 < tickTime 10 10 10 1 :=
  ⟨by rw [count_eval 10 10 10 100 (by norm_num)]; omega,
    C3_schedule_monotonic 10 10 10 (by norm_num) (by norm_num) (by norm_num) (by norm_num) 0
      (by rw [count_eval 10 10 10 100 (by norm_num)]; omega)⟩

/-- C9: for every profile with low ≥ 0, high ≥ 0, duration > 0 and slope ≠ 0,
and every index n ≤ N, the square-root argument low² + 2·slope·n is bounded
below by min(low², high²), hence nonnegative, so the square root is the real
square root of its argument (never NaN) on the whole scheduled index range,
including decreasing ramps. -/
theorem C9_sqrt_arg_nonneg (low high durS : ℚ) (hl : 0 ≤ low) (hh : 0 ≤ high)
    (hd : 0 < durS) (hs : Lancer.slope low high durS ≠ 0) (n : ℕ)
    (hn : n ≤ count low high durS) :
    min ((low : ℝ) * low) ((high : ℝ) * high) ≤
        (low : ℝ) * low + 2 * (Lancer.slope low high durS : ℝ) * n
    ∧ 0 ≤ (low : ℝ) * low + 2 * (Lancer.slope low high durS : ℝ) * n
    ∧ Real.sqrt ((low : ℝ) * low + 2 * (Lancer.slope low high durS : ℝ) * n) ^ 2
        = (low : ℝ) * low + 2 * (Lancer.slope low high durS : ℝ) * n := by
  have hb := sqrtArg_lower low high durS hl hh hd n hn
  have hmin : (0 : ℝ) ≤ min ((low : ℝ) * low) ((high : ℝ) * high) := by
    have h1 : (0 : ℝ) ≤ (low : ℝ) * low := by positivity
    have h2 : (0 : ℝ) ≤ (high : ℝ) * high := by positivity
    exact le_min h1 h2
  exact ⟨hb, le_trans hmin hb, Real.sq_sqrt (le_trans hmin hb)⟩

/-- C9 witness: the decreasing ramp low = 2, high = 0 over 1 s has N = 1, and
at n = 1 the square-root argument equals high² = 0, nonnegative. -/
theorem C9_sqrt_arg_nonneg_witness :
    Lancer.slope 2 0 1 ≠ 0
    ∧ (1 : ℕ) ≤ count 2 0 1
    ∧ 0 ≤ (2 : ℝ) * 2 + 2 * (Lancer.slope 2 0 1 : ℝ) * (1 : ℕ) :=
  ⟨by norm_num [Lancer.slope], by rw [count_eval 2 0 1 1 (by norm_num)],
    (C9_sqrt_arg_nonneg 2 0 1 (by norm_num) (by norm_num) (by norm_num)
      (by norm_num [Lancer.slope]) 1
      (by rw [count_eval 2 0 1 1 (by norm_num)])).2.1⟩

/-- C2 counterexample: for the profile low = high = 10, duration = 1 s we have
N = 10, yet a run of Lance with no missed deadline, no abort and no
cancellation emits 11 permits (the extra offset-0 permit plus the 10 scheduled
ones), so the program does emit N + 1 permits, not exactly N. -/
theorem C2_schedule_count_counterexample :
    count 10 10 1 = 10
    ∧ (Lance 10 10 1 100 (fun _ => false) (fun _ => false)).map (fun p => p.1.length)
        = some 11 := by
  have hc : count 10 10 1 = 10 := count_eval 10 10 1 10 (by norm_num)
  refine ⟨hc, ?_⟩
  simp only [Lance, hc]
  decide

/-- C2 amended: in a run with no missed deadline, no abort and no cancellation,
the library scheduler Linear emits exactly N = floor((low+high)/2·durationSeconds)
permits, while the program scheduler Lance emits exactly N + 1 permits: the
initial offset-0 permit plus the N scheduled ones. -/
theorem C2_schedule_count (low high durS : ℚ) (missedFrac : ℕ)
    (canceled ready : ℕ → Bool)
    (hcan : ∀ i, canceled i = false) (hrdy : ∀ i, ready i = true)
    (hdur : ¬ durS ≤ 0) (hfit : ¬ (durS : ℝ) < tickTime low high durS 1) :
    (Linear low high durS canceled ready).map List.length
        = Except.ok (count low high durS)
    ∧ (Lance low high durS missedFrac (fun _ => false) canceled).map (fun p => p.1.length)
        = some (count low high durS + 1) := by
  constructor
  · rw [show Linear low high durS canceled ready
        = linearLoop canceled ready [] (List.range' 1 (count low high durS)) from by
      simp [Linear, hdur, hfit]]
    rw [linearLoop_complete canceled ready _ [] (fun i _ => hcan i) (fun i _ => hrdy i)]
    simp [Except.map]
  · rw [show Lance low high durS missedFrac (fun _ => false) canceled
        = lanceLoop missedFrac (count low high durS) (fun _ => false) canceled 0 [0]
            (List.range' 1 (count low high durS)) from by
      simp [Lance, hcan 0]]
    rw [lanceLoop_complete _ _ _ _ _ _ _ (fun i _ => hcan i) (by simp)]
    simp

/-- C2 amended witness: profile low = high = 1 over 2 s, N = 2: Linear emits 2
permits and Lance emits 3. -/
theorem C2_schedule_count_witness :
    (Linear 1 1 2 (fun _ => false) (fun _ => true)).map List.length = Except.ok (count 1 1 2)
    ∧ (Lance 1 1 2 7 (fun _ => false) (fun _ => false)).map (fun p => p.1.length)
        = some (count 1 1 2 + 1) :=
  C2_schedule_count 1 1 2 7 (fun _ => false) (fun _ => true)
    (fun _ => rfl) (fun _ => rfl) (by norm_num)
    (by rw [tickTime_slope_zero 1 1 2 1 (by norm_num [Lancer.slope])]; norm_num)

/-- C4 counterexample: profile low = high = 10 over 1 s (N = 10),
missedFractionDivisor = 1, with only index 1 missed: the run completes with
missed count 1, but the permit for index 1 is NOT emitted — the missed
iteration skips the send along with the sleep, so a missed tick is not a
release. -/
theorem C4_missed_handling_counterexample :
    Lance 10 10 1 1 (fun i => i == 1) (fun _ => false)
        = some ([0, 2, 3, 4, 5, 6, 7, 8, 9, 10], 1)
    ∧ (1 : ℕ) ∉ [0, 2, 3, 4, 5, 6, 7, 8, 9, 10] := by
  have hc : count 10 10 1 = 10 := count_eval 10 10 1 10 (by norm_num)
  constructor
  · simp only [Lance, hc]
    decide
  · decide

/-- C4 amended: when Lance finds dt < 0 at an index it increments the missed
count and skips BOTH the sleep and that index's permit (a missed tick is not a
release); with no cancellation the run completes exactly when
missedFrac · (number of late indices) ≤ N — so the abort fires only strictly
after missedCount · missedFrac exceeds N, never at equality — emitting the
offset-0 permit plus exactly the non-late indices and ending with
missed = number of late indices, and aborts with the threshold error exactly
when missedFrac · (number of late indices) > N. -/
theorem C4_missed_handling (low high durS : ℚ) (missedFrac : ℕ) (late : ℕ → Bool) :
    (missedFrac * ((List.range' 1 (count low high durS)).filter late).length
          ≤ count low high durS →
        Lance low high durS missedFrac late (fun _ => false)
          = some (0 :: (List.range' 1 (count low high durS)).filter (fun i => ! late i),
              ((List.range' 1 (count low high durS)).filter late).length))
    ∧ (count low high durS
          < missedFrac * ((List.range' 1 (count low high durS)).filter late).length →
        Lance low high durS missedFrac late (fun _ => false) = none) := by
  constructor
  · intro hth
    rw [show Lance low high durS missedFrac late (fun _ => false)
        = lanceLoop missedFrac (count low high durS) late (fun _ => false) 0 [0]
            (List.range' 1 (count low high durS)) from by
      simp [Lance]]
    rw [lanceLoop_complete _ _ _ _ _ _ _ (fun i _ => rfl) (by simpa using hth)]
    simp
  · intro hth
    rw [show Lance low high durS missedFrac late (fun _ => false)
        = lanceLoop missedFrac (count low high durS) late (fun _ => false) 0 [0]
            (List.range' 1 (count low high durS)) from by
      simp [Lance]]
    exact lanceLoop_abort _ _ _ _ _ _ _ (fun i _ => rfl) (by simp) (by simpa using hth)

/-- C4 amended witness: with N = 10, missedFrac = 1 and exactly index 1 late,
1 · 1 ≤ 10, so the run completes with the late permit skipped and missed = 1. -/
theorem C4_missed_handling_witness :
    1 * ((List.range' 1 (count 10 10 1)).filter (fun i => i == 1)).length ≤ count 10 10 1
    ∧ Lance 10 10 1 1 (fun i => i == 1) (fun _ => false)
        = some (0 :: (List.range' 1 (count 10 10 1)).filter (fun i => ! (i == 1)),
            ((List.range' 1 (count 10 10 1)).filter (fun i => i == 1)).length) := by
  have hc : count 10 10 1 = 10 := count_eval 10 10 1 10 (by norm_num)
  refine ⟨by rw [hc]; decide, (C4_missed_handling 10 10 1 1 (fun i => i == 1)).1 ?_⟩
  rw [hc]
  decide

/-- C5 counterexample: the zero-rate profile low = high = 0, duration = 60 s is
NOT rejected before scheduling: Lance computes count = 0, still emits the
initial offset-0 permit on the permit channel and returns nil — no
configuration error is raised and the scheduler does start emitting. -/
theorem C5_zero_rate_counterexample :
    Lance 0 0 60 100 (fun _ => false) (fun _ => false) = some ([0], 0)
    ∧ count 0 0 60 = 0 := by
  have hc : count 0 0 60 = 0 := count_eval 0 0 60 0 (by norm_num)
  constructor
  · simp only [Lance, hc]
    decide
  · exact hc

/-- C5 amended: a zero-rate profile (low = high = 0) is not rejected as a
configuration error: for every duration > 0, Lance emits the offset-0 permit
and returns nil with zero scheduled permits and zero missed, and Linear passes
its duration checks (with low = 0 the slope-0 tickTime(1) divides by zero; as
on the reference platform, the bad-duration check does not trigger) and
returns nil having emitted no ticks. -/
theorem C5_zero_rate_not_rejected (durS : ℚ) (missedFrac : ℕ)
    (late canceled ready : ℕ → Bool) (hd : 0 < durS) (hc0 : canceled 0 = false) :
    Lance 0 0 durS missedFrac late canceled = some ([0], 0)
    ∧ Linear 0 0 durS canceled ready = Except.ok [] := by
  have hcnt : count 0 0 durS = 0 := count_eval 0 0 durS 0 (by norm_num)
  constructor
  · simp [Lance, hc0, hcnt, lanceLoop]
  · have hs : Lancer.slope 0 0 durS = 0 := by simp [Lancer.slope]
    have ht : tickTime 0 0 durS 1 = 0 := by
      rw [tickTime_slope_zero 0 0 durS 1 hs]
      simp
    have hd' : ¬ durS ≤ 0 := by linarith
    have hfit : ¬ (durS : ℝ) < tickTime 0 0 durS 1 := by
      rw [ht]
      have : (0 : ℝ) < (durS : ℝ) := by exact_mod_cast hd
      linarith
    simp [Linear, hd', hfit, hcnt, linearLoop]

/-- C5 amended witness: at duration 60 s, Lance emits the offset-0 permit and
returns nil, Linear returns nil with no ticks. -/
theorem C5_zero_rate_not_rejected_witness :
    Lance 0 0 60 7 (fun _ => false) (fun _ => false) = some ([0], 0)
    ∧ Linear 0 0 60 (fun _ => false) (fun _ => true) = Except.ok [] :=
  C5_zero_rate_not_rejected 60 7 (fun _ => false) (fun _ => false) (fun _ => true)
    (by norm_num) rfl

/-- C6: the ready-worker tracker raises the fatal no-capacity error exactly when
the running sum of +1 and -1 announcements reaches zero on an announcement it
processes before the run's cancellation signal; once cancellation is observed
(requests no longer being produced) it returns without error; and in the
one-worker scenario — initial ready count 1 and an unserved backlog keeping
the permit flow going — the very first busy announcement drives the count to
zero and terminates the run with the overload error. -/
theorem C6_overload_detection (c : ℤ) (ds : List ℤ) :
    (trackerRun c (ds.map TrackerEv.delta) = true ↔
      ∃ k, k < ds.length ∧ c + (ds.take (k + 1)).sum = 0)
    ∧ (∀ evs : List TrackerEv, trackerRun c (TrackerEv.done :: evs) = false)
    ∧ trackerRun 1 [TrackerEv.delta (-1)] = true :=
  ⟨trackerRun_deltas c ds, fun evs => rfl, rfl⟩

/-- C7 counterexample: for the profile low = high = 1 over 1 s, with
cancellation signalled at the first permit-send point, the library scheduler
Linear returns context.Canceled — an error — not a nil result, refuting the
claim that the scheduler's run operation always returns with no error on
cancellation. -/
theorem C7_cancellation_counterexample :
    Linear 1 1 1 (fun _ => true) (fun _ => true) = Except.error LinearError.canceled := by
  have hs : Lancer.slope 1 1 1 = 0 := by norm_num [Lancer.slope]
  have ht : tickTime 1 1 1 1 = 1 := by
    rw [tickTime_slope_zero 1 1 1 1 hs]
    norm_num
  have hcnt : count 1 1 1 = 1 := count_eval 1 1 1 1 (by norm_num)
  have hd' : ¬ (1 : ℚ) ≤ 0 := by norm_num
  simp [Linear, hd', hcnt, linearLoop, ht]

/-- C7 amended: when the cancellation token is signalled at a point where the
scheduler observes it, the program scheduler Lance returns immediately with
nil — at the initial send with no permits emitted, and at any in-loop send
point with exactly the permits emitted so far — whereas the library scheduler
Linear instead returns the context.Canceled error from its send select. -/
theorem C7_cancellation (low high durS : ℚ) (missedFrac missed : ℕ)
    (late canceled canceled2 ready : ℕ → Bool) (acc rest : List ℕ) (i : ℕ)
    (h0 : canceled 0 = true) (hli : late i = false) (hci : canceled i = true)
    (hdur : ¬ durS ≤ 0) (hfit : ¬ (durS : ℝ) < tickTime low high durS 1)
    (hcnt : 0 < count low high durS) (hc1 : canceled2 1 = true) :
    Lance low high durS missedFrac late canceled = some ([], 0)
    ∧ lanceLoop missedFrac (count low high durS) late canceled missed acc (i :: rest)
        = some (acc, missed)
    ∧ Linear low high durS canceled2 ready = Except.error LinearError.canceled := by
  refine ⟨by simp [Lance, h0], by simp [lanceLoop, hli, hci], ?_⟩
  obtain ⟨k, hk⟩ : ∃ k, count low high durS = k + 1 :=
    ⟨count low high durS - 1, by omega⟩
  rw [show Linear low high durS canceled2 ready
      = linearLoop canceled2 ready [] (List.range' 1 (count low high durS)) from by
    simp [Linear, hdur, hfit]]
  rw [hk]
  simp [List.range', linearLoop, hc1]

/-- C7 amended witness: profile low = high = 1 over 2 s with cancellation
signalled everywhere: Lance returns nil immediately, the loop returns nil with
the permits emitted so far, and Linear returns context.Canceled. -/
theorem C7_cancellation_witness :
    Lance 1 1 2 3 (fun _ => false) (fun _ => true) = some ([], 0)
    ∧ lanceLoop 3 (count 1 1 2) (fun _ => false) (fun _ => true) 0 [0] [1]
        = some ([0], 0)
    ∧ Linear 1 1 2 (fun _ => true) (fun _ => true) = Except.error LinearError.canceled :=
  C7_cancellation 1 1 2 3 0 (fun _ => false) (fun _ => true) (fun _ => true)
    (fun _ => true) [0] [] 1 rfl rfl rfl (by norm_num)
    (by rw [tickTime_slope_zero 1 1 2 1 (by norm_num [Lancer.slope])]; norm_num)
    (by rw [count_eval 1 1 2 2 (by norm_num)]; omega) rfl

/-- C8: for every request descriptor claimed by the worker that receives its
permit before cancellation, exactly one Hit record is emitted — the hit list is
precisely one mkHit per spear processed before cancellation, with the error
field clear exactly on a successful call (and set on transport or body-read
failure) — a per-request failure neither terminates the worker's loop nor
changes pool state: the announcement trace is a function of cancellation alone
(independent of call outcomes) and sums to zero when no cancellation occurs. -/
theorem C8_result_completeness (outcome : ℕ → Outcome) (canceled : ℕ → Bool)
    (tick : ℕ → ℕ) (spears : List ℕ) :
    (Worker outcome canceled tick spears).1 =
        (spears.takeWhile (fun s => ! canceled s)).map (fun s => mkHit (outcome s) (tick s) s)
    ∧ (Worker outcome canceled tick spears).2 = workerDeltas canceled spears
    ∧ (∀ s, ((mkHit (outcome s) (tick s) s).error = false ↔
          ∃ c z, outcome s = Outcome.success c z))
    ∧ ((∀ s ∈ spears, canceled s = false) → (workerDeltas canceled spears).sum = 0) := by
  refine ⟨worker_hits outcome canceled tick spears,
    worker_deltas outcome canceled tick spears, fun s => ?_,
    workerDeltas_sum canceled spears⟩
  cases houtcome : outcome s with
  | transportErr => simp [mkHit, houtcome]
  | readErr => simp [mkHit, houtcome]
  | success c z => simp [mkHit, houtcome]

/-- C8 witness: two spears, the first failing in transport, the second
succeeding with status 200 and body size 3: two hits are emitted (one per
spear, the failure not stopping the loop), and the announcements balance. -/
theorem C8_result_completeness_witness :
    (Worker (fun s => if s = 5 then Outcome.transportErr else Outcome.success 200 3)
        (fun _ => false) (fun s => s) [5, 7]).1 =
      (([5, 7].takeWhile (fun s => ! (fun _ => false) s)).map
        (fun s => mkHit ((fun s => if s = 5 then Outcome.transportErr
          else Outcome.success 200 3) s) s s))
    ∧ (workerDeltas (fun _ => false) [5, 7]).sum = 0 :=
  ⟨(C8_result_completeness (fun s => if s = 5 then Outcome.transportErr
      else Outcome.success 200 3) (fun _ => false) (fun s => s) [5, 7]).1,
    (C8_result_completeness (fun s => if s = 5 then Outcome.transportErr
      else Outcome.success 200 3) (fun _ => false) (fun s => s) [5, 7]).2.2.2
      (by decide)⟩

/-- C10: the library scheduler Linear never returns ErrTickMissed, for any
profile and any cancellation and receiver-readiness behaviour — the declared
missed-tick error is unreachable — and in a run with no cancellation and an
always-ready receiver that passes the duration checks, every one of the N
scheduled ticks is sent, with no missed-deadline counting, threshold check or
abort: emission is independent of deadline timing. -/
theorem C10_tick_missed_unreachable (low high durS : ℚ) (canceled ready : ℕ → Bool) :
    Linear low high durS canceled ready ≠ Except.error LinearError.tickMissed
    ∧ ((¬ durS ≤ 0) → (¬ (durS : ℝ) < tickTime low high durS 1) →
        (∀ i, canceled i = false) → (∀ i, ready i = true) →
        Linear low high durS canceled ready
          = Except.ok (List.range' 1 (count low high durS))) := by
  constructor
  · unfold Linear
    split
    · simp
    · split
      · simp
      · exact linearLoop_ne_tickMissed canceled ready _ []
  · intro hdur hfit hcan hrdy
    rw [show Linear low high durS canceled ready
        = linearLoop canceled ready [] (List.range' 1 (count low high durS)) from by
      simp [Linear, hdur, hfit]]
    rw [linearLoop_complete canceled ready _ [] (fun i _ => hcan i) (fun i _ => hrdy i)]
    simp

/-- C10 witness: profile low = high = 1 over 2 s with an always-ready receiver
and no cancellation: Linear is not ErrTickMissed and emits both scheduled
ticks. -/
theorem C10_tick_missed_unreachable_witness :
    Linear 1 1 2 (fun _ => false) (fun _ => true) ≠ Except.error LinearError.tickMissed
    ∧ Linear 1 1 2 (fun _ => false) (fun _ => true)
        = Except.ok (List.range' 1 (count 1 1 2)) :=
  ⟨(C10_tick_missed_unreachable 1 1 2 (fun _ => false) (fun _ => true)).1,
    (C10_tick_missed_unreachable 1 1 2 (fun _ => false) (fun _ => true)).2
      (by norm_num)
      (by rw [tickTime_slope_zero 1 1 2 1 (by norm_num [Lancer.slope])]; norm_num)
      (fun _ => rfl) (fun _ => rfl)⟩
